import Mathlib

/-!
# Verification of the stoQ `filedir` plugin (`filedir/filedir/filedir.py`)

A shallow embedding of the plugin's three roles — provider (`ingest`),
connector (`save`) and archiver (`archive`/`get`) — together with proofs of
the specification's claims about them.

Modelling conventions:
* Bytes are `Nat` values below 256; byte strings are `List Nat`.
* Filesystem paths are modelled as their lists of `/`-separated segments
  (the source only ever builds paths by joining components with `/`);
  `renderPath` turns a segment list back into the absolute path string.
* `os.path.abspath` on an absolute input is `posixpath.normpath`: empty and
  `.` segments are dropped and `..` pops one segment; this is `abspath` below.
* The filesystem is a pair of an association list from paths to file
  contents and the list of existing directories; `openX` is `open(…, 'x')`
  (exclusive creation), `mkdirP` is `Path(…).mkdir(parents=True, exist_ok=True)`.
* `datetime.now().strftime(self.date_format)` is nondeterministic input, so
  the formatted date is passed to the operations as an explicit argument
  `now` (its list of path segments, since formats such as `%Y/%m/%d`
  contain slashes).
-/

set_option maxRecDepth 4000

namespace StoqFileDir

/-! ## SHA-1 (as `hashlib.sha1(payload).hexdigest()`)

A direct embedding of FIPS 180-1 over byte lists, with 32-bit words as
`Nat` reduced by `w32`. -/

/-- Truncate to a 32-bit word. -/
def w32 (n : Nat) : Nat := n % 4294967296

/-- Rotate the 32-bit word `x` left by `n` (`0 < n < 32`). -/
def rotl (n x : Nat) : Nat := w32 ((x <<< n) ||| (x >>> (32 - n)))

/-- The SHA-1 round function `f_t(b,c,d)`. -/
def sha1F (t b c d : Nat) : Nat :=
  if t < 20 then (b &&& c) ||| ((4294967295 ^^^ b) &&& d)
  else if t < 40 then b ^^^ c ^^^ d
  else if t < 60 then (b &&& c) ||| (b &&& d) ||| (c &&& d)
  else b ^^^ c ^^^ d

/-- The SHA-1 round constant `K_t`. -/
def sha1K (t : Nat) : Nat :=
  if t < 20 then 1518500249
  else if t < 40 then 1859775393
  else if t < 60 then 2400959708
  else 3395469782

/-- SHA-1 padding: append `0x80`, zero bytes up to 56 mod 64, then the
bit length as eight big-endian bytes. -/
def sha1pad (msg : List Nat) : List Nat :=
  let l := msg.length
  let k := (120 - (l + 1) % 64) % 64
  msg ++ [128] ++ List.replicate k 0
    ++ (List.range 8).map (fun i => ((8 * l) >>> (8 * (7 - i))) % 256)

/-- The `i`-th big-endian 32-bit word of a 64-byte block. -/
def wordAt (block : List Nat) (i : Nat) : Nat :=
  256 * (256 * (256 * block.getD (4 * i) 0 + block.getD (4 * i + 1) 0)
    + block.getD (4 * i + 2) 0) + block.getD (4 * i + 3) 0

/-- The 80-word message schedule of a block. -/
def schedule (block : List Nat) : List Nat :=
  (List.range 64).foldl
    (fun w _ =>
      w ++ [rotl 1 ((w.getD (w.length - 3) 0) ^^^ (w.getD (w.length - 8) 0)
        ^^^ (w.getD (w.length - 14) 0) ^^^ (w.getD (w.length - 16) 0))])
    ((List.range 16).map (wordAt block))

/-- The five-word SHA-1 state. -/
structure H5 where
  a : Nat
  b : Nat
  c : Nat
  d : Nat
  e : Nat
  deriving DecidableEq

/-- One SHA-1 round: state update for round `t` with schedule word `w`. -/
def stepRound (st : H5) (tw : Nat × Nat) : H5 :=
  ⟨w32 (rotl 5 st.a + sha1F tw.1 st.b st.c st.d + st.e + sha1K tw.1 + tw.2),
    st.a, rotl 30 st.b, st.c, st.d⟩

/-- Process one 64-byte block: 80 rounds then add the old state. -/
def processBlock (h : H5) (block : List Nat) : H5 :=
  let st := (schedule block).enum.foldl stepRound h
  ⟨w32 (h.a + st.a), w32 (h.b + st.b), w32 (h.c + st.c),
    w32 (h.d + st.d), w32 (h.e + st.e)⟩

/-- The 64-byte blocks of the padded message. -/
def sha1blocks (msg : List Nat) : List (List Nat) :=
  let p := sha1pad msg
  (List.range (p.length / 64)).map fun i => (p.drop (64 * i)).take 64

/-- The final SHA-1 state of a message. -/
def sha1H (msg : List Nat) : H5 :=
  (sha1blocks msg).foldl processBlock
    ⟨1732584193, 4023233417, 2562383102, 271733878, 3285377520⟩

/-- The sixteen lowercase hex digits. -/
def hexChars : List Char := "0123456789abcdef".toList

/-- The lowercase hex digit of `n % 16`. -/
def hexDigitChar (n : Nat) : Char := hexChars.getD (n % 16) '0'

/-- The `len` lowercase hex digits of the word `w`, most significant first. -/
def hexDigits (w len : Nat) : List Char :=
  (List.range len).map fun i => hexDigitChar (w >>> (4 * (len - 1 - i)))

/-- The 40 characters of the lowercase hex SHA-1 digest of `msg`. -/
def sha1hexList (msg : List Nat) : List Char :=
  let h := sha1H msg
  hexDigits h.a 8 ++ hexDigits h.b 8 ++ hexDigits h.c 8
    ++ hexDigits h.d 8 ++ hexDigits h.e 8

/-- Model of `hashlib.sha1(msg).hexdigest()`: the lowercase hex SHA-1 digest. -/
def sha1hex (msg : List Nat) : String := String.mk (sha1hexList msg)

example : sha1hex [104, 101, 108, 108, 111]
    = "aaf4c61ddcc5e8a2dabede0f3b482cd9aea9434d" := by decide

example : sha1hex [] = "da39a3ee5e6b4b0d3255bfef95601890afd80709" := by decide

/-! ## Paths and the filesystem model -/

/-- Render an absolute path's segments as the path string. -/
def renderPath (p : List String) : String := "/" ++ String.intercalate "/" p

/-- One segment step of `posixpath.normpath` on an absolute path: empty and
`.` segments vanish, `..` pops the segment above (at the root it is a no-op,
as for absolute POSIX paths). -/
def normStep (acc : List String) (seg : String) : List String :=
  if seg = "" ∨ seg = "." then acc
  else if seg = ".." then acc.dropLast
  else acc ++ [seg]

/-- Model of `os.path.abspath` on the segments of an absolute path:
`posixpath.normpath` segment by segment. -/
def abspath (p : List String) : List String := p.foldl normStep []

/-- The exceptions the plugin can raise:
`StoqPluginException`, `FileExistsError`, `FileNotFoundError`. -/
inductive PluginError where
  | stoqPluginError
  | fileExists
  | fileNotFound
  deriving DecidableEq

/-- The filesystem state the plugin mutates: files (an association list from
absolute path segments to contents of type `α`) and existing directories. -/
structure FS (α : Type) where
  files : List (List String × α)
  dirs : List (List String)
  deriving DecidableEq

/-- Read the file at `p` (`open(p, 'r').read()` when it exists). -/
def fsRead {α : Type} (fs : FS α) (p : List String) : Option α :=
  fs.files.lookup p

/-- Model of `open(p, 'x')` followed by a single write: exclusive creation, raising
`FileExistsError` when a file already exists at `p`. -/
def openX {α : Type} (fs : FS α) (p : List String) (content : α) :
    Except PluginError (FS α) :=
  match fs.files.lookup p with
  | some _ => .error .fileExists
  | none => .ok { fs with files := fs.files ++ [(p, content)] }

/-- Model of `Path(p).mkdir(parents=True, exist_ok=True)`: record `p` and all its
ancestors as directories, skipping those that already exist. -/
def mkdirP {α : Type} (fs : FS α) (p : List String) : FS α :=
  { fs with
    dirs := ((List.range (p.length + 1)).map fun k => p.take k).foldl
      (fun ds d => if d ∈ ds then ds else ds ++ [d]) fs.dirs }

/-- The plugin's configuration (section `options`); `date_format` is kept
only as the opaque format string, the formatted date reaches the operations
as the explicit `now` argument. `source_dir = none` models the unset (falsy)
value. -/
structure Config where
  source_dir : Option (List String) := none
  recursive : Bool := false
  results_dir : List String
  date_mode : Bool := false
  date_format : String := "%Y/%m/%d"
  compactly : Bool := true
  archive_dir : List String
  use_sha : Bool := true

/-! ## The archiver role: `archive` and `get` -/

/-- Model of `ArchiverResponse` with its `path` field: the locator returned by `archive`,
holding the archived file's absolute path. -/
structure ArchiverResponse where
  path : List String
  deriving DecidableEq

/-- The `Payload` returned by `get`: the bytes read from disk plus
`PayloadMeta(extra_data=task.results)`. -/
structure ArchivedPayload where
  content : List Nat
  extra_data : ArchiverResponse
  deriving DecidableEq

/-- Model of `FileDirPlugin.archive`: choose the filename and the sharded or
date-partitioned directory, create the directories, write the payload with
exclusive creation, ignoring `FileExistsError`, and return the locator. -/
def archive (cfg : Config) (now : List String) (content : List Nat)
    (payload_id : String) (fs : FS (List Nat)) :
    FS (List Nat) × ArchiverResponse :=
  let pf : List String × String :=
    if cfg.use_sha then
      let digest := sha1hex content
      (cfg.archive_dir ++ (digest.toList.take 5).map (fun c => String.mk [c]),
        digest)
    else if cfg.date_mode then (cfg.archive_dir ++ now, payload_id)
    else (cfg.archive_dir, payload_id)
  let apath := abspath pf.1
  let fs := mkdirP fs apath
  let fs :=
    match openX fs (apath ++ [pf.2]) content with
    | .ok fs' => fs'
    | .error _ => fs
  (fs, ⟨apath ++ [pf.2]⟩)

/-- Model of `FileDirPlugin.get`: resolve the locator's path to an absolute path,
read the file, return its bytes with the locator's fields as metadata. -/
def get (task : ArchiverResponse) (fs : FS (List Nat)) :
    Except PluginError ArchivedPayload :=
  match fsRead fs (abspath task.path) with
  | some content => .ok ⟨content, task⟩
  | none => .error .fileNotFound

/-! ## The connector role: `save`

`dumps` stands for `fun c => helpers.dumps(response, compactly=c)` applied
to the response being saved; `scan_id` is `response.scan_id`. On error the
post-state (directories were still created) is returned with the raised
exception. -/

/-- Model of `FileDirPlugin.save`: build the target directory (date-partitioned when
`date_mode`), create it recursively, then write the serialized response plus
a newline with exclusive creation. -/
def save (cfg : Config) (now : List String) (scan_id : String)
    (dumps : Bool → String) (fs : FS String) : FS String × Option PluginError :=
  let path := cfg.results_dir
  let path := if cfg.date_mode then path ++ now else path
  let path := abspath path
  let fs := mkdirP fs path
  match openX fs (path ++ [scan_id]) (dumps cfg.compactly ++ "\n") with
  | .ok fs' => (fs', none)
  | .error e => (fs, some e)

/-! ## The provider role: `ingest`

The directory tree under the configured source is a value of `FSNode`;
`resolve` maps a path to the node living there (`none` when the path names
neither a file nor a directory, so `os.path.isdir` and `os.path.isfile` are
both false). -/

/-- A filesystem node: a regular file with its bytes, or a directory with
its named entries. -/
inductive FSNode where
  | file (content : List Nat) : FSNode
  | dir (entries : List (String × FSNode)) : FSNode

/-- One `Payload` put on the queue by `_queue`: the file's bytes plus
`extra_data = {'filename': basename, 'source_dir': dirname}`. -/
structure WorkUnit where
  content : List Nat
  filename : String
  source_dir : List String
  deriving DecidableEq

/-- The regular-file entries of one directory level, as
`(containing directory, name, contents)`. -/
def filesOfD (base : List String) (entries : List (String × FSNode)) :
    List (List String × String × List Nat) :=
  entries.filterMap fun e =>
    match e.2 with
    | .file c => some (base, e.1, c)
    | .dir _ => none

mutual
/-- Model of `os.walk` from `base` over a node, emitting every regular file of the
subtree as `(containing directory, name, contents)`: the current level's
files first, then each subdirectory in order (walking a file entry
contributes nothing, matching `os.walk` descending only directories). -/
def walkNode (base : List String) : FSNode → List (List String × String × List Nat)
  | .file _ => []
  | .dir entries => filesOfD base entries ++ walkEntries base entries
  termination_by t => sizeOf t

/-- Walk each entry of a directory at `base`, in order. -/
def walkEntries (base : List String) :
    List (String × FSNode) → List (List String × String × List Nat)
  | [] => []
  | e :: rest => walkNode (base ++ [e.1]) e.2 ++ walkEntries base rest
  termination_by l => sizeOf l
  decreasing_by
  all_goals obtain ⟨n, t⟩ := e
  all_goals simp
  omega
end

/-- Model of the `os.scandir` filtering in the non-recursive branch: keep an entry
iff its name does not start with a dot and it is a regular file. -/
def scandirFiles (entries : List (String × FSNode)) :
    List (String × List Nat) :=
  entries.filterMap fun e =>
    if e.1.startsWith "." then none
    else
      match e.2 with
      | .file c => some (e.1, c)
      | .dir _ => none

/-- Model of `FileDirPlugin.ingest`: fail when `source_dir` is unset; walk a directory
recursively or scan it one level deep; queue a single file directly; do
nothing when the path names neither. Returns the queued work units. -/
def ingest (cfg : Config) (resolve : List String → Option FSNode) :
    Except PluginError (List WorkUnit) :=
  match cfg.source_dir with
  | none => .error .stoqPluginError
  | some src =>
    match resolve src with
    | some (.dir entries) =>
      if cfg.recursive then
        .ok ((walkNode src (.dir entries)).map fun x => ⟨x.2.2, x.2.1, x.1⟩)
      else
        .ok ((scandirFiles entries).map fun x => ⟨x.2, x.1, src⟩)
    | some (.file c) => .ok [⟨c, src.getLastD "", src.dropLast⟩]
    | none => .ok []

/-- A path segment that survives normalization unchanged: nonempty and
neither `.` nor `..`. -/
def cleanSeg (s : String) : Prop := s ≠ "" ∧ s ≠ "." ∧ s ≠ ".."

instance (s : String) : Decidable (cleanSeg s) := by
  unfold cleanSeg; infer_instance

/-- Well-formed directory trees: entry names are distinct within each
directory, as on a real filesystem. -/
inductive WFNode : FSNode → Prop where
  | file (c : List Nat) : WFNode (.file c)
  | dir (es : List (String × FSNode)) (hnames : (es.map Prod.fst).Nodup)
      (hchild : ∀ e ∈ es, WFNode e.2) : WFNode (.dir es)

/-- Resolve one relative path segment against an optional node: only a
directory has children, found by name. -/
def childOf (o : Option FSNode) (n : String) : Option FSNode :=
  match o with
  | some (.dir es) => es.lookup n
  | _ => none

/-- The node at relative path `p` under `t`, if any. -/
def nodeAt (t : FSNode) (p : List String) : Option FSNode :=
  p.foldl childOf (some t)

/-- The contents of the regular file at relative path `p` under `t`:
the specification-side notion of "the tree has this file". -/
def contentAt (t : FSNode) (p : List String) : Option (List Nat) :=
  match nodeAt t p with
  | some (.file c) => some c
  | _ => none

/-! ## Concrete fixtures used by the witnesses -/

/-- A configuration with `source_dir` unset. -/
def cfgC8 : Config := { results_dir := ["results"], archive_dir := ["archive"] }

/-- A configuration whose `source_dir` names a nonexistent path. -/
def cfgC9 : Config :=
  { source_dir := some ["missing"], results_dir := ["results"],
    archive_dir := ["archive"] }

/-- The empty filesystem with string file contents. -/
def fsEmptyS : FS String := ⟨[], []⟩

/-- The empty filesystem with byte file contents. -/
def fsEmptyB : FS (List Nat) := ⟨[], []⟩

/-- The bytes of `b"hello"`. -/
def helloBytes : List Nat := [104, 101, 108, 108, 111]

/-- A content-addressed archive configuration with `archive_dir=/tmp/arc`. -/
def cfgC1 : Config := { results_dir := ["results"], archive_dir := ["tmp", "arc"] }

/-- An identifier-addressed archive configuration (`use_sha` unset). -/
def cfgC10 : Config :=
  { results_dir := ["results"], archive_dir := ["archive"], use_sha := false }

/-- A directory with a visible file, a hidden file, and a subdirectory. -/
def entriesC6 : List (String × FSNode) :=
  [("a.txt", .file [1]), (".hid", .file [2]), ("sub", .dir [("c.txt", .file [3])])]

/-- A non-recursive provider configuration rooted at `/data`. -/
def cfgC6 : Config :=
  { source_dir := some ["data"], results_dir := ["results"],
    archive_dir := ["archive"] }

/-- The filesystem resolver placing `entriesC6` at `/data`. -/
def resolveC6 : List String → Option FSNode := fun p =>
  if p = ["data"] then some (.dir entriesC6) else none

/-- A directory tree with a file at depth one and one at depth two. -/
def entriesC7 : List (String × FSNode) :=
  [("a.txt", .file [1]), ("sub", .dir [("b.txt", .file [2, 3])])]

/-- A recursive provider configuration rooted at `/data`. -/
def cfgC7 : Config :=
  { source_dir := some ["data"], recursive := true, results_dir := ["results"],
    archive_dir := ["archive"] }

/-- The filesystem resolver placing `entriesC7` at `/data`. -/
def resolveC7 : List String → Option FSNode := fun p =>
  if p = ["data"] then some (.dir entriesC7) else none

/-- A flat-results configuration. -/
def cfgC4 : Config := { results_dir := ["results"], archive_dir := ["archive"] }

/-- A date-partitioned results configuration. -/
def cfgC5 : Config :=
  { results_dir := ["results"], date_mode := true, archive_dir := ["archive"] }

end StoqFileDir

namespace StoqFileDir

/-! ## General lemmas about the filesystem model -/

theorem lookup_append_of_none {κ α : Type} [BEq κ] (l₁ l₂ : List (κ × α))
    (k : κ) (h : l₁.lookup k = none) :
    (l₁ ++ l₂).lookup k = l₂.lookup k := by
  induction l₁ with
  | nil => simp
  | cons e rest ih =>
    obtain ⟨a, b⟩ := e
    simp only [List.cons_append, List.lookup] at h ⊢
    cases hk : k == a with
    | true => rw [hk] at h; simp at h
    | false => rw [hk] at h; exact ih h

theorem lookup_concat_self {κ α : Type} [BEq κ] [LawfulBEq κ]
    (l : List (κ × α)) (k : κ) (v : α) (h : l.lookup k = none) :
    (l ++ [(k, v)]).lookup k = some v := by
  rw [lookup_append_of_none l [(k, v)] k h]
  simp [List.lookup]

theorem lookup_append_of_some {κ α : Type} [BEq κ] (l₁ l₂ : List (κ × α))
    (k : κ) (v : α) (h : l₁.lookup k = some v) :
    (l₁ ++ l₂).lookup k = some v := by
  induction l₁ with
  | nil => simp at h
  | cons e rest ih =>
    obtain ⟨a, b⟩ := e
    simp only [List.cons_append, List.lookup] at h ⊢
    cases hk : k == a with
    | true => rw [hk] at h; exact h
    | false => rw [hk] at h; exact ih h

theorem mkdirP_files {α : Type} (fs : FS α) (p : List String) :
    (mkdirP fs p).files = fs.files := rfl

theorem foldl_addDir_mem (l : List (List String)) (ds : List (List String))
    (d : List String) (h : d ∈ ds ∨ d ∈ l) :
    d ∈ l.foldl (fun ds d' => if d' ∈ ds then ds else ds ++ [d']) ds := by
  induction l generalizing ds with
  | nil => simpa using h
  | cons e rest ih =>
    simp only [List.foldl_cons]
    apply ih
    rcases h with h | h
    · left; split <;> simp [h]
    · rcases List.mem_cons.1 h with rfl | h
      · left; split <;> simp_all
      · right; exact h

theorem foldl_addDir_of_mem (l : List (List String)) (ds : List (List String))
    (h : ∀ d ∈ l, d ∈ ds) :
    l.foldl (fun ds d' => if d' ∈ ds then ds else ds ++ [d']) ds = ds := by
  induction l generalizing ds with
  | nil => rfl
  | cons e rest ih =>
    simp only [List.foldl_cons]
    rw [if_pos (h e (by simp))]
    exact ih ds fun d hd => h d (by simp [hd])

theorem take_mem_mkdirP {α : Type} (fs : FS α) (p : List String) (k : Nat) :
    p.take k ∈ (mkdirP fs p).dirs := by
  unfold mkdirP
  apply foldl_addDir_mem
  right
  rcases le_or_lt k p.length with h | h
  · exact List.mem_map.2 ⟨k, by simp [List.mem_range]; omega, rfl⟩
  · have : p.take k = p.take p.length := by
      rw [List.take_of_length_le (by omega), List.take_length]
    rw [this]
    exact List.mem_map.2 ⟨p.length, by simp, rfl⟩

theorem mkdirP_of_mem {α : Type} (fs : FS α) (p : List String)
    (h : ∀ k, p.take k ∈ fs.dirs) : mkdirP fs p = fs := by
  unfold mkdirP
  cases fs with
  | mk files dirs =>
    simp only [FS.mk.injEq, true_and]
    apply foldl_addDir_of_mem
    intro d hd
    rcases List.mem_map.1 hd with ⟨k, _, rfl⟩
    exact h k

theorem mkdirP_idem {α : Type} (fs : FS α) (p : List String) :
    mkdirP (mkdirP fs p) p = mkdirP fs p :=
  mkdirP_of_mem _ p fun k => take_mem_mkdirP fs p k

/-! ## Claims about `ingest` error handling -/

/-- C8: for every configuration in which `source_dir` is absent, `ingest`
fails with the plugin's configuration error (`StoqPluginException`) and
emits no work units. -/
theorem ingest_missing_source_dir (cfg : Config)
    (resolve : List String → Option FSNode) (h : cfg.source_dir = none) :
    ingest cfg resolve = .error .stoqPluginError := by
  simp [ingest, h]

theorem ingest_missing_source_dir_witness :
    cfgC8.source_dir = none
      ∧ ingest cfgC8 (fun _ => none) = .error .stoqPluginError :=
  ⟨rfl, ingest_missing_source_dir cfgC8 (fun _ => none) rfl⟩

/-- C9: for every configuration whose `source_dir` names a path that is
neither an existing regular file nor an existing directory, `ingest`
completes as a silent no-op: no error and no work units. -/
theorem ingest_nonexistent_path (cfg : Config)
    (resolve : List String → Option FSNode) (src : List String)
    (h1 : cfg.source_dir = some src) (h2 : resolve src = none) :
    ingest cfg resolve = .ok [] := by
  simp [ingest, h1, h2]

theorem ingest_nonexistent_path_witness :
    cfgC9.source_dir = some ["missing"]
      ∧ ingest cfgC9 (fun _ => none) = .ok [] :=
  ⟨rfl, ingest_nonexistent_path cfgC9 (fun _ => none) ["missing"] rfl rfl⟩

/-! ## Claims about `save` -/

theorem save_of_free (cfg : Config) (now : List String) (scan_id : String)
    (dumps : Bool → String) (fs : FS String)
    (hfree : fs.files.lookup
      (abspath (if cfg.date_mode then cfg.results_dir ++ now else cfg.results_dir)
        ++ [scan_id]) = none) :
    save cfg now scan_id dumps fs
      = (⟨fs.files
            ++ [(abspath (if cfg.date_mode then cfg.results_dir ++ now
                  else cfg.results_dir) ++ [scan_id],
                dumps cfg.compactly ++ "\n")],
          (mkdirP fs (abspath (if cfg.date_mode then cfg.results_dir ++ now
            else cfg.results_dir))).dirs⟩,
        none) := by
  simp only [save, openX, mkdirP_files, hfree]

theorem save_of_exists (cfg : Config) (now : List String) (scan_id : String)
    (dumps : Bool → String) (fs : FS String) (v : String)
    (h : fs.files.lookup
      (abspath (if cfg.date_mode then cfg.results_dir ++ now else cfg.results_dir)
        ++ [scan_id]) = some v) :
    save cfg now scan_id dumps fs
      = (mkdirP fs (abspath (if cfg.date_mode then cfg.results_dir ++ now
          else cfg.results_dir)),
        some .fileExists) := by
  simp only [save, openX, mkdirP_files, h]

/-- C5: `save` writes to `results_dir/<scan_id>`, or
`results_dir/<date>/<scan_id>` when `date_mode` is set, creating the target
directories recursively; the written content is the serialized record for
the configured compactness followed by exactly one trailing newline; and
re-creating the already existing directories is a no-op (idempotence). -/
theorem save_layout (cfg : Config) (now : List String) (scan_id : String)
    (dumps : Bool → String) (fs : FS String) (dir : List String)
    (hdir : dir
      = abspath (if cfg.date_mode then cfg.results_dir ++ now else cfg.results_dir))
    (hfree : fs.files.lookup (dir ++ [scan_id]) = none) :
    (save cfg now scan_id dumps fs).2 = none
    ∧ (save cfg now scan_id dumps fs).1.files.lookup (dir ++ [scan_id])
        = some (dumps cfg.compactly ++ "\n")
    ∧ (∀ k, dir.take k ∈ (save cfg now scan_id dumps fs).1.dirs)
    ∧ mkdirP (save cfg now scan_id dumps fs).1 dir
        = (save cfg now scan_id dumps fs).1 := by
  subst hdir
  rw [save_of_free cfg now scan_id dumps fs hfree]
  exact ⟨rfl, lookup_concat_self _ _ _ hfree, fun k => take_mem_mkdirP fs _ k,
    mkdirP_of_mem _ _ fun k => take_mem_mkdirP fs _ k⟩

theorem save_layout_witness :
    (save cfgC5 ["2026", "10", "12"] "scan1" (fun _ => "one") fsEmptyS).2 = none
    ∧ (save cfgC5 ["2026", "10", "12"] "scan1" (fun _ => "one") fsEmptyS).1.files.lookup
        (["results", "2026", "10", "12"] ++ ["scan1"]) = some ("one" ++ "\n")
    ∧ (∀ k, (["results", "2026", "10", "12"] : List String).take k
        ∈ (save cfgC5 ["2026", "10", "12"] "scan1" (fun _ => "one") fsEmptyS).1.dirs)
    ∧ mkdirP (save cfgC5 ["2026", "10", "12"] "scan1" (fun _ => "one") fsEmptyS).1
        ["results", "2026", "10", "12"]
      = (save cfgC5 ["2026", "10", "12"] "scan1" (fun _ => "one") fsEmptyS).1 := by
  simpa using save_layout cfgC5 ["2026", "10", "12"] "scan1" (fun _ => "one")
    fsEmptyS ["results", "2026", "10", "12"] (by rfl) (by rfl)

/-- C4: results are write-once: with the same scan identifier targeting the
same path, the first `save` succeeds, the second raises `FileExistsError`
with no data written, and the first file's content is unchanged. -/
theorem save_write_once (cfg : Config) (now : List String) (scan_id : String)
    (d1 d2 : Bool → String) (fs : FS String) (dir : List String)
    (hdir : dir
      = abspath (if cfg.date_mode then cfg.results_dir ++ now else cfg.results_dir))
    (hfree : fs.files.lookup (dir ++ [scan_id]) = none) :
    (save cfg now scan_id d1 fs).2 = none
    ∧ (save cfg now scan_id d2 (save cfg now scan_id d1 fs).1).2
        = some .fileExists
    ∧ (save cfg now scan_id d2 (save cfg now scan_id d1 fs).1).1.files
        = (save cfg now scan_id d1 fs).1.files
    ∧ (save cfg now scan_id d2 (save cfg now scan_id d1 fs).1).1.files.lookup
        (dir ++ [scan_id]) = some (d1 cfg.compactly ++ "\n") := by
  subst hdir
  rw [save_of_free cfg now scan_id d1 fs hfree,
    save_of_exists cfg now scan_id d2 _ _ (lookup_concat_self _ _ _ hfree)]
  exact ⟨rfl, rfl, mkdirP_files _ _, by
    rw [mkdirP_files]; exact lookup_concat_self _ _ _ hfree⟩

/-! ## Lemmas about `abspath` -/

theorem foldl_normStep_clean (p : List String) (acc : List String)
    (h : ∀ s ∈ p, cleanSeg s) : p.foldl normStep acc = acc ++ p := by
  induction p generalizing acc with
  | nil => simp
  | cons s rest ih =>
    obtain ⟨h1, h2, h3⟩ := h s (by simp)
    have hstep : normStep acc s = acc ++ [s] := by
      unfold normStep
      rw [if_neg (fun hc => hc.elim h1 h2), if_neg h3]
    rw [List.foldl_cons, hstep,
      ih _ fun x hx => h x (List.mem_cons_of_mem _ hx)]
    simp

theorem abspath_clean (p : List String) (h : ∀ s ∈ p, cleanSeg s) :
    abspath p = p := by
  unfold abspath
  rw [foldl_normStep_clean p [] h]
  simp

theorem clean_normStep (acc : List String) (s : String)
    (h : ∀ x ∈ acc, cleanSeg x) : ∀ x ∈ normStep acc s, cleanSeg x := by
  intro x hx
  unfold normStep at hx
  split at hx
  · exact h x hx
  · split at hx
    · exact h x ((List.dropLast_sublist acc).subset hx)
    · next hc hc2 =>
      rcases List.mem_append.1 hx with hx | hx
      · exact h x hx
      · rcases List.mem_singleton.1 hx with rfl
        exact ⟨fun h' => hc (Or.inl h'), fun h' => hc (Or.inr h'), hc2⟩

theorem abspath_clean_out (p : List String) : ∀ x ∈ abspath p, cleanSeg x := by
  have main : ∀ acc, (∀ x ∈ acc, cleanSeg x) →
      ∀ x ∈ p.foldl normStep acc, cleanSeg x := by
    induction p with
    | nil => intro acc h; simpa using h
    | cons s rest ih =>
      intro acc h
      rw [List.foldl_cons]
      exact ih _ (clean_normStep acc s h)
  exact main [] (by simp)

theorem abspath_concat_clean (p : List String) (f : String) (hf : cleanSeg f) :
    abspath (abspath p ++ [f]) = abspath p ++ [f] := by
  apply abspath_clean
  intro x hx
  rcases List.mem_append.1 hx with hx | hx
  · exact abspath_clean_out p x hx
  · rcases List.mem_singleton.1 hx with rfl
    exact hf

/-! ## Characterization lemmas for `archive` -/

theorem archive_path_eq (cfg : Config) (now : List String) (content : List Nat)
    (pid : String) (fs : FS (List Nat)) (dirp : List String) (fname : String)
    (hpf : (if cfg.use_sha then
        (cfg.archive_dir
          ++ ((sha1hex content).toList.take 5).map (fun c => String.mk [c]),
          sha1hex content)
      else if cfg.date_mode then (cfg.archive_dir ++ now, pid)
      else (cfg.archive_dir, pid)) = (dirp, fname)) :
    (archive cfg now content pid fs).2 = ⟨abspath dirp ++ [fname]⟩ := by
  simp only [archive]
  rw [hpf]

theorem archive_of_free (cfg : Config) (now : List String) (content : List Nat)
    (pid : String) (fs : FS (List Nat)) (dirp : List String) (fname : String)
    (hpf : (if cfg.use_sha then
        (cfg.archive_dir
          ++ ((sha1hex content).toList.take 5).map (fun c => String.mk [c]),
          sha1hex content)
      else if cfg.date_mode then (cfg.archive_dir ++ now, pid)
      else (cfg.archive_dir, pid)) = (dirp, fname))
    (hfree : fs.files.lookup (abspath dirp ++ [fname]) = none) :
    archive cfg now content pid fs
      = (⟨fs.files ++ [(abspath dirp ++ [fname], content)],
          (mkdirP fs (abspath dirp)).dirs⟩,
        ⟨abspath dirp ++ [fname]⟩) := by
  simp only [archive]
  rw [hpf]
  simp only [openX, mkdirP_files, hfree]

theorem archive_of_exists (cfg : Config) (now : List String)
    (content : List Nat) (pid : String) (fs : FS (List Nat))
    (dirp : List String) (fname : String) (v : List Nat)
    (hpf : (if cfg.use_sha then
        (cfg.archive_dir
          ++ ((sha1hex content).toList.take 5).map (fun c => String.mk [c]),
          sha1hex content)
      else if cfg.date_mode then (cfg.archive_dir ++ now, pid)
      else (cfg.archive_dir, pid)) = (dirp, fname))
    (hsome : fs.files.lookup (abspath dirp ++ [fname]) = some v) :
    archive cfg now content pid fs
      = (mkdirP fs (abspath dirp), ⟨abspath dirp ++ [fname]⟩) := by
  simp only [archive]
  rw [hpf]
  simp only [openX, mkdirP_files, hsome]

theorem save_write_once_witness :
    (save cfgC4 [] "scan1" (fun _ => "one") fsEmptyS).2 = none
    ∧ (save cfgC4 [] "scan1" (fun _ => "two")
        (save cfgC4 [] "scan1" (fun _ => "one") fsEmptyS).1).2 = some .fileExists
    ∧ (save cfgC4 [] "scan1" (fun _ => "two")
        (save cfgC4 [] "scan1" (fun _ => "one") fsEmptyS).1).1.files
        = (save cfgC4 [] "scan1" (fun _ => "one") fsEmptyS).1.files
    ∧ (save cfgC4 [] "scan1" (fun _ => "two")
        (save cfgC4 [] "scan1" (fun _ => "one") fsEmptyS).1).1.files.lookup
        (["results"] ++ ["scan1"]) = some ("one" ++ "\n") := by
  simpa using save_write_once cfgC4 [] "scan1" (fun _ => "one") (fun _ => "two")
    fsEmptyS ["results"] (by rfl) (by rfl)

/-! ## Claims about `archive` -/

/-- C2: archiving the same byte content twice with `use_sha` set returns the
same locator both times, the second call raises no error and leaves the
filesystem exactly as the first call left it (so the existing file is not
overwritten); moreover `archive` never changes any existing file's content. -/
theorem archive_same_content_idem (cfg : Config) (now : List String)
    (content : List Nat) (pid : String) (fs : FS (List Nat))
    (hsha : cfg.use_sha = true) :
    (archive cfg now content pid (archive cfg now content pid fs).1).2
        = (archive cfg now content pid fs).2
    ∧ (archive cfg now content pid (archive cfg now content pid fs).1).1
        = (archive cfg now content pid fs).1
    ∧ ∀ q v, fs.files.lookup q = some v →
        (archive cfg now content pid fs).1.files.lookup q = some v := by
  have hpf : (if cfg.use_sha then
        (cfg.archive_dir
          ++ ((sha1hex content).toList.take 5).map (fun c => String.mk [c]),
          sha1hex content)
      else if cfg.date_mode then (cfg.archive_dir ++ now, pid)
      else (cfg.archive_dir, pid))
      = (cfg.archive_dir
          ++ ((sha1hex content).toList.take 5).map (fun c => String.mk [c]),
        sha1hex content) := by
    simp [hsha]
  rcases hlook : fs.files.lookup
      (abspath (cfg.archive_dir
        ++ ((sha1hex content).toList.take 5).map (fun c => String.mk [c]))
      ++ [sha1hex content]) with _ | v
  · rw [archive_of_free cfg now content pid fs _ _ hpf hlook,
      archive_of_exists cfg now content pid _ _ _ content hpf
        (lookup_concat_self _ _ _ hlook)]
    exact ⟨rfl,
      mkdirP_of_mem _ _ (fun k => take_mem_mkdirP fs _ k),
      fun q v hv => lookup_append_of_some _ _ _ _ hv⟩
  · rw [archive_of_exists cfg now content pid fs _ _ v hpf hlook,
      archive_of_exists cfg now content pid _ _ _ v hpf
        (by rw [mkdirP_files]; exact hlook)]
    exact ⟨rfl, mkdirP_idem fs _, fun q v hv => by rw [mkdirP_files]; exact hv⟩

theorem archive_same_content_idem_witness :
    cfgC1.use_sha = true
    ∧ ((archive cfgC1 [] helloBytes "" (archive cfgC1 [] helloBytes "" fsEmptyB).1).2
        = (archive cfgC1 [] helloBytes "" fsEmptyB).2
      ∧ (archive cfgC1 [] helloBytes "" (archive cfgC1 [] helloBytes "" fsEmptyB).1).1
        = (archive cfgC1 [] helloBytes "" fsEmptyB).1
      ∧ ∀ q v, fsEmptyB.files.lookup q = some v →
          (archive cfgC1 [] helloBytes "" fsEmptyB).1.files.lookup q = some v) :=
  ⟨rfl, archive_same_content_idem cfgC1 [] helloBytes "" fsEmptyB rfl⟩

/-- C10: with `use_sha` unset, a second `archive` with the same payload
identifier and date partition but different content raises no error, returns
the first call's locator, leaves the first payload's bytes at that path, and
a retrieval on the second call's locator returns the first content, not the
second's. -/
theorem archive_id_collision (cfg : Config) (now : List String) (pid : String)
    (c1 c2 : List Nat) (fs : FS (List Nat)) (dirp : List String)
    (hsha : cfg.use_sha = false) (hneq : c1 ≠ c2) (hpid : cleanSeg pid)
    (hdirp : dirp = if cfg.date_mode then cfg.archive_dir ++ now else cfg.archive_dir)
    (hfree : fs.files.lookup (abspath dirp ++ [pid]) = none) :
    (archive cfg now c2 pid (archive cfg now c1 pid fs).1).2
        = (archive cfg now c1 pid fs).2
    ∧ (archive cfg now c2 pid (archive cfg now c1 pid fs).1).1.files.lookup
        (abspath dirp ++ [pid]) = some c1
    ∧ get (archive cfg now c2 pid (archive cfg now c1 pid fs).1).2
        (archive cfg now c2 pid (archive cfg now c1 pid fs).1).1
        = .ok ⟨c1, (archive cfg now c2 pid (archive cfg now c1 pid fs).1).2⟩
    ∧ ¬ get (archive cfg now c2 pid (archive cfg now c1 pid fs).1).2
        (archive cfg now c2 pid (archive cfg now c1 pid fs).1).1
        = .ok ⟨c2, (archive cfg now c2 pid (archive cfg now c1 pid fs).1).2⟩ := by
  have hpf : ∀ c : List Nat, (if cfg.use_sha then
        (cfg.archive_dir
          ++ ((sha1hex c).toList.take 5).map (fun ch => String.mk [ch]),
          sha1hex c)
      else if cfg.date_mode then (cfg.archive_dir ++ now, pid)
      else (cfg.archive_dir, pid)) = (dirp, pid) := by
    intro c
    subst hdirp
    cases cfg.date_mode <;> simp [hsha]
  rw [archive_of_free cfg now c1 pid fs dirp pid (hpf c1) hfree,
    archive_of_exists cfg now c2 pid _ dirp pid c1 (hpf c2)
      (lookup_concat_self _ _ _ hfree)]
  refine ⟨rfl, ?_, ?_, ?_⟩
  · rw [mkdirP_files]
    exact lookup_concat_self _ _ _ hfree
  · simp only [get, fsRead, mkdirP_files, abspath_concat_clean dirp pid hpid,
      lookup_concat_self _ _ _ hfree]
  · simp only [get, fsRead, mkdirP_files, abspath_concat_clean dirp pid hpid,
      lookup_concat_self _ _ _ hfree, Except.ok.injEq, ArchivedPayload.mk.injEq]
    exact fun h => hneq h.1

theorem archive_id_collision_witness :
    (archive cfgC10 [] [2] "id1" (archive cfgC10 [] [1] "id1" fsEmptyB).1).2
        = (archive cfgC10 [] [1] "id1" fsEmptyB).2
    ∧ (archive cfgC10 [] [2] "id1" (archive cfgC10 [] [1] "id1" fsEmptyB).1).1.files.lookup
        (abspath ["archive"] ++ ["id1"]) = some [1]
    ∧ get (archive cfgC10 [] [2] "id1" (archive cfgC10 [] [1] "id1" fsEmptyB).1).2
        (archive cfgC10 [] [2] "id1" (archive cfgC10 [] [1] "id1" fsEmptyB).1).1
        = .ok ⟨[1], (archive cfgC10 [] [2] "id1" (archive cfgC10 [] [1] "id1" fsEmptyB).1).2⟩
    ∧ ¬ get (archive cfgC10 [] [2] "id1" (archive cfgC10 [] [1] "id1" fsEmptyB).1).2
        (archive cfgC10 [] [2] "id1" (archive cfgC10 [] [1] "id1" fsEmptyB).1).1
        = .ok ⟨[2], (archive cfgC10 [] [2] "id1" (archive cfgC10 [] [1] "id1" fsEmptyB).1).2⟩ :=
  archive_id_collision cfgC10 [] "id1" [1] [2] fsEmptyB ["archive"]
    rfl (by decide) (by decide) rfl rfl

theorem archive_get_aux (cfg : Config) (now : List String) (content : List Nat)
    (pid : String) (fs : FS (List Nat)) (dirp : List String) (fname : String)
    (hpf : (if cfg.use_sha then
        (cfg.archive_dir
          ++ ((sha1hex content).toList.take 5).map (fun c => String.mk [c]),
          sha1hex content)
      else if cfg.date_mode then (cfg.archive_dir ++ now, pid)
      else (cfg.archive_dir, pid)) = (dirp, fname))
    (hf : cleanSeg fname)
    (hstate : fs.files.lookup (abspath dirp ++ [fname]) = none
      ∨ fs.files.lookup (abspath dirp ++ [fname]) = some content) :
    get (archive cfg now content pid fs).2 (archive cfg now content pid fs).1
      = .ok ⟨content, (archive cfg now content pid fs).2⟩ := by
  rcases hstate with h | h
  · rw [archive_of_free cfg now content pid fs dirp fname hpf h]
    simp only [get, fsRead, abspath_concat_clean dirp fname hf,
      lookup_concat_self _ _ _ h]
  · rw [archive_of_exists cfg now content pid fs dirp fname content hpf h]
    simp only [get, fsRead, mkdirP_files, abspath_concat_clean dirp fname hf, h]

/-- C3: retrieving via the locator returned by `archive` for a payload
yields bytes identical to the archived payload bytes, and the returned
metadata equals the locator's own fields; the target path must not already
hold different bytes (under `use_sha` that would be a SHA-1 collision, whose
contract is "identical content already stored"). -/
theorem archive_get_roundtrip (cfg : Config) (now : List String)
    (content : List Nat) (pid : String) (fs : FS (List Nat))
    (hname : cleanSeg (if cfg.use_sha then sha1hex content else pid))
    (hstate : fs.files.lookup (archive cfg now content pid fs).2.path = none
      ∨ fs.files.lookup (archive cfg now content pid fs).2.path = some content) :
    get (archive cfg now content pid fs).2 (archive cfg now content pid fs).1
      = .ok ⟨content, (archive cfg now content pid fs).2⟩ := by
  cases hsha : cfg.use_sha with
  | true =>
    have hpf : (if cfg.use_sha then
        (cfg.archive_dir
          ++ ((sha1hex content).toList.take 5).map (fun c => String.mk [c]),
          sha1hex content)
      else if cfg.date_mode then (cfg.archive_dir ++ now, pid)
      else (cfg.archive_dir, pid))
        = (cfg.archive_dir
            ++ ((sha1hex content).toList.take 5).map (fun c => String.mk [c]),
          sha1hex content) := by simp [hsha]
    rw [archive_path_eq cfg now content pid fs _ _ hpf] at hstate
    exact archive_get_aux cfg now content pid fs _ _ hpf
      (by simpa [hsha] using hname) hstate
  | false =>
    cases hdm : cfg.date_mode with
    | true =>
      have hpf : (if cfg.use_sha then
          (cfg.archive_dir
            ++ ((sha1hex content).toList.take 5).map (fun c => String.mk [c]),
            sha1hex content)
        else if cfg.date_mode then (cfg.archive_dir ++ now, pid)
        else (cfg.archive_dir, pid)) = (cfg.archive_dir ++ now, pid) := by
        simp [hsha, hdm]
      rw [archive_path_eq cfg now content pid fs _ _ hpf] at hstate
      exact archive_get_aux cfg now content pid fs _ _ hpf
        (by simpa [hsha] using hname) hstate
    | false =>
      have hpf : (if cfg.use_sha then
          (cfg.archive_dir
            ++ ((sha1hex content).toList.take 5).map (fun c => String.mk [c]),
            sha1hex content)
        else if cfg.date_mode then (cfg.archive_dir ++ now, pid)
        else (cfg.archive_dir, pid)) = (cfg.archive_dir, pid) := by
        simp [hsha, hdm]
      rw [archive_path_eq cfg now content pid fs _ _ hpf] at hstate
      exact archive_get_aux cfg now content pid fs _ _ hpf
        (by simpa [hsha] using hname) hstate

theorem archive_get_roundtrip_witness :
    get (archive cfgC1 [] helloBytes "" fsEmptyB).2
        (archive cfgC1 [] helloBytes "" fsEmptyB).1
      = .ok ⟨helloBytes, (archive cfgC1 [] helloBytes "" fsEmptyB).2⟩ :=
  archive_get_roundtrip cfgC1 [] helloBytes "" fsEmptyB (by decide) (Or.inl rfl)

/-! ## The SHA-1 shard layout (C1) -/

theorem hexDigitChar_mem (n : Nat) : hexDigitChar n ∈ hexChars := by
  unfold hexDigitChar
  have h : n % 16 < 16 := Nat.mod_lt _ (by norm_num)
  generalize n % 16 = m at h ⊢
  interval_cases m <;> decide

theorem sha1hex_chars (msg : List Nat) :
    ∀ ch ∈ (sha1hex msg).toList, ch ∈ hexChars := by
  intro ch hch
  have hmem : ch ∈ sha1hexList msg := hch
  unfold sha1hexList hexDigits at hmem
  simp only [List.mem_append, List.mem_map, List.mem_range] at hmem
  rcases hmem with ((((⟨i, _, rfl⟩ | ⟨i, _, rfl⟩) | ⟨i, _, rfl⟩) | ⟨i, _, rfl⟩)
    | ⟨i, _, rfl⟩) <;> exact hexDigitChar_mem _

theorem hexChar_seg_clean (ch : Char) (h : ch ∈ hexChars) :
    cleanSeg (String.mk [ch]) := by
  have hall : ∀ c ∈ hexChars, cleanSeg (String.mk [c]) := by decide
  exact hall ch h

/-- C1: with `use_sha` set, the locator's path is
`archive_dir/<d1>/<d2>/<d3>/<d4>/<d5>/<digest>` where `<digest>` is the
lowercase hex SHA-1 digest of the payload bytes and `d1..d5` are its first
five hex characters, one character per path segment (for an `archive_dir`
that is already a normalized absolute path). -/
theorem archive_sha_path (cfg : Config) (now : List String)
    (content : List Nat) (pid : String) (fs : FS (List Nat))
    (hsha : cfg.use_sha = true) (hdir : ∀ s ∈ cfg.archive_dir, cleanSeg s) :
    (archive cfg now content pid fs).2.path
      = cfg.archive_dir
        ++ ((sha1hex content).toList.take 5).map (fun c => String.mk [c])
        ++ [sha1hex content] := by
  have hpf : (if cfg.use_sha then
      (cfg.archive_dir
        ++ ((sha1hex content).toList.take 5).map (fun c => String.mk [c]),
        sha1hex content)
    else if cfg.date_mode then (cfg.archive_dir ++ now, pid)
    else (cfg.archive_dir, pid))
      = (cfg.archive_dir
          ++ ((sha1hex content).toList.take 5).map (fun c => String.mk [c]),
        sha1hex content) := by simp [hsha]
  rw [archive_path_eq cfg now content pid fs _ _ hpf]
  have hclean : abspath (cfg.archive_dir
      ++ ((sha1hex content).toList.take 5).map (fun c => String.mk [c]))
      = cfg.archive_dir
        ++ ((sha1hex content).toList.take 5).map (fun c => String.mk [c]) := by
    apply abspath_clean
    intro s hs
    rcases List.mem_append.1 hs with hs | hs
    · exact hdir s hs
    · rcases List.mem_map.1 hs with ⟨ch, hch, rfl⟩
      exact hexChar_seg_clean ch
        (sha1hex_chars content ch (List.take_subset 5 _ hch))
  rw [hclean]

theorem archive_sha_path_witness :
    (archive cfgC1 [] helloBytes "" fsEmptyB).2.path
      = ["tmp", "arc", "a", "a", "f", "4", "c",
          "aaf4c61ddcc5e8a2dabede0f3b482cd9aea9434d"]
    ∧ renderPath (archive cfgC1 [] helloBytes "" fsEmptyB).2.path
      = "/tmp/arc/a/a/f/4/c/aaf4c61ddcc5e8a2dabede0f3b482cd9aea9434d" := by
  have h := archive_sha_path cfgC1 [] helloBytes "" fsEmptyB rfl (by decide)
  rw [h]
  constructor
  · decide
  · decide

/-! ## Claims about `ingest` traversal -/

theorem mem_scandirFiles (entries : List (String × FSNode)) (n : String)
    (c : List Nat) :
    (n, c) ∈ scandirFiles entries
      ↔ n.startsWith "." = false ∧ (n, FSNode.file c) ∈ entries := by
  unfold scandirFiles
  rw [List.mem_filterMap]
  constructor
  · rintro ⟨⟨n', t⟩, he, hfe⟩
    cases hh : (n').startsWith "." with
    | true => rw [hh] at hfe; simp at hfe
    | false =>
      rw [hh] at hfe
      cases t with
      | file c' =>
        simp only [Bool.false_eq_true, if_false] at hfe
        obtain ⟨rfl, rfl⟩ := Option.some.inj hfe |> Prod.mk.inj
        exact ⟨hh, he⟩
      | dir es => simp at hfe
  · rintro ⟨hh, he⟩
    exact ⟨(n, .file c), he, by simp [hh]⟩

/-- C6: with the recursive flag unset, `ingest` emits a work unit exactly
for the immediate regular-file entries of `source_dir` whose name does not
start with a dot; hidden entries are never emitted, and subdirectories are
never descended (every emitted unit's `source_dir` is the scan root). -/
theorem ingest_nonrecursive (cfg : Config)
    (resolve : List String → Option FSNode) (src : List String)
    (entries : List (String × FSNode)) (u : WorkUnit)
    (hsrc : cfg.source_dir = some src) (hrec : cfg.recursive = false)
    (hres : resolve src = some (.dir entries)) :
    ∃ units, ingest cfg resolve = .ok units
      ∧ (u ∈ units ↔
          u.source_dir = src ∧ u.filename.startsWith "." = false
            ∧ (u.filename, FSNode.file u.content) ∈ entries) := by
  have hok : ingest cfg resolve
      = .ok ((scandirFiles entries).map fun x => ⟨x.2, x.1, src⟩) := by
    simp [ingest, hsrc, hres, hrec]
  refine ⟨_, hok, ?_⟩
  obtain ⟨uc, un, usd⟩ := u
  rw [List.mem_map]
  constructor
  · rintro ⟨⟨n, c⟩, hmem, heq⟩
    obtain ⟨rfl, rfl, rfl⟩ := WorkUnit.mk.inj heq
    rcases (mem_scandirFiles entries n c).1 hmem with ⟨hh, he⟩
    exact ⟨rfl, hh, he⟩
  · rintro ⟨rfl, hh, he⟩
    exact ⟨(un, uc), (mem_scandirFiles entries un uc).2 ⟨hh, he⟩, rfl⟩

theorem ingest_nonrecursive_witness :
    ∃ units, ingest cfgC6 resolveC6 = .ok units
      ∧ ((⟨[1], "a.txt", ["data"]⟩ : WorkUnit) ∈ units ↔
          (⟨[1], "a.txt", ["data"]⟩ : WorkUnit).source_dir = ["data"]
            ∧ (⟨[1], "a.txt", ["data"]⟩ : WorkUnit).filename.startsWith "."
                = false
            ∧ ((⟨[1], "a.txt", ["data"]⟩ : WorkUnit).filename,
                FSNode.file (⟨[1], "a.txt", ["data"]⟩ : WorkUnit).content)
              ∈ entriesC6) :=
  ingest_nonrecursive cfgC6 resolveC6 ["data"] entriesC6
    ⟨[1], "a.txt", ["data"]⟩ rfl rfl rfl

/-! ## The recursive walk (C7) -/

theorem lookup_eq_some_iff {κ α : Type} [BEq κ] [LawfulBEq κ]
    (l : List (κ × α)) (k : κ) (v : α) (hnd : (l.map Prod.fst).Nodup) :
    l.lookup k = some v ↔ (k, v) ∈ l := by
  induction l with
  | nil => simp [List.lookup]
  | cons e rest ih =>
    obtain ⟨a, b⟩ := e
    simp only [List.map_cons, List.nodup_cons] at hnd
    obtain ⟨ha, hrest⟩ := hnd
    simp only [List.lookup, List.mem_cons]
    cases hk : k == a with
    | true =>
      have hka : k = a := eq_of_beq hk
      subst hka
      constructor
      · intro h
        exact Or.inl (by rw [Option.some.inj h])
      · rintro (h | h)
        · obtain ⟨-, rfl⟩ := Prod.mk.inj h
          rfl
        · exact absurd (List.mem_map_of_mem Prod.fst h) ha
    | false =>
      have hka : k ≠ a := fun h => by subst h; simp at hk
      rw [ih hrest]
      constructor
      · exact Or.inr
      · rintro (h | h)
        · exact absurd (Prod.mk.inj h).1 hka
        · exact h

theorem foldl_childOf_none (p : List String) : p.foldl childOf none = none := by
  induction p with
  | nil => rfl
  | cons n rest ih => simpa [childOf] using ih

theorem contentAt_file (cc : List Nat) (q : List String) (hq : q ≠ []) :
    contentAt (.file cc) q = none := by
  cases q with
  | nil => exact absurd rfl hq
  | cons n p =>
    unfold contentAt nodeAt
    rw [List.foldl_cons]
    show (match p.foldl childOf none with
      | some (.file c) => some c | _ => none) = none
    rw [foldl_childOf_none p]

theorem contentAt_dir_cons (es : List (String × FSNode)) (n : String)
    (p : List String) :
    contentAt (.dir es) (n :: p)
      = match es.lookup n with
        | some t => contentAt t p
        | none => none := by
  unfold contentAt nodeAt
  rw [List.foldl_cons]
  show (match p.foldl childOf (es.lookup n) with
    | some (.file c) => some c | _ => none) = _
  cases hl : es.lookup n with
  | none => rw [foldl_childOf_none p]
  | some t => rfl

theorem mem_filesOfD (base : List String) (es : List (String × FSNode))
    (d : List String) (n : String) (c : List Nat) :
    (d, n, c) ∈ filesOfD base es ↔ d = base ∧ (n, FSNode.file c) ∈ es := by
  unfold filesOfD
  rw [List.mem_filterMap]
  constructor
  · rintro ⟨⟨n', t⟩, he, hfe⟩
    cases t with
    | file c' =>
      obtain ⟨h1, h2⟩ := Prod.mk.inj (Option.some.inj hfe)
      obtain ⟨h3, h4⟩ := Prod.mk.inj h2
      subst h1; subst h3; subst h4
      exact ⟨rfl, he⟩
    | dir es' => simp at hfe
  · rintro ⟨rfl, he⟩
    exact ⟨(n, .file c), he, rfl⟩

theorem mem_walkEntries (base : List String) (es : List (String × FSNode))
    (x : List String × String × List Nat) :
    x ∈ walkEntries base es ↔ ∃ e ∈ es, x ∈ walkNode (base ++ [e.1]) e.2 := by
  induction es with
  | nil => simp [walkEntries]
  | cons e rest ih =>
    simp only [walkEntries, List.mem_append, ih, List.mem_cons]
    constructor
    · rintro (h | ⟨e', he', hx⟩)
      · exact ⟨e, Or.inl rfl, h⟩
      · exact ⟨e', Or.inr he', hx⟩
    · rintro ⟨e', he' | he', hx⟩
      · subst he'; exact Or.inl hx
      · exact Or.inr ⟨e', he', hx⟩

theorem mem_walkNode {t : FSNode} (hwf : WFNode t) :
    ∀ (base d : List String) (n : String) (c : List Nat),
      (d, n, c) ∈ walkNode base t
        ↔ ∃ rel, d = base ++ rel ∧ contentAt t (rel ++ [n]) = some c := by
  induction hwf with
  | file cc =>
    intro base d n c
    simp only [walkNode, List.not_mem_nil, false_iff, not_exists, not_and]
    intro rel _
    rw [contentAt_file cc (rel ++ [n]) (by simp)]
    simp
  | dir es hnames hchild ih =>
    intro base d n c
    simp only [walkNode]
    rw [List.mem_append, mem_filesOfD, mem_walkEntries]
    constructor
    · rintro (⟨rfl, hmem⟩ | ⟨e, he, hx⟩)
      · refine ⟨[], by simp, ?_⟩
        rw [List.nil_append, contentAt_dir_cons,
          (lookup_eq_some_iff es n (FSNode.file c) hnames).2 hmem]
        rfl
      · rcases (ih e he (base ++ [e.1]) d n c).1 hx with ⟨rel, rfl, hc⟩
        refine ⟨e.1 :: rel, by simp, ?_⟩
        rw [List.cons_append, contentAt_dir_cons,
          (lookup_eq_some_iff es e.1 e.2 hnames).2 he]
        exact hc
    · rintro ⟨rel, rfl, hc⟩
      cases rel with
      | nil =>
        left
        rw [List.nil_append, contentAt_dir_cons] at hc
        refine ⟨by simp, ?_⟩
        cases hl : es.lookup n with
        | none => rw [hl] at hc; simp at hc
        | some t' =>
          rw [hl] at hc
          cases t' with
          | file c' =>
            have hcc : c' = c := by simpa [contentAt, nodeAt] using hc
            subst hcc
            exact (lookup_eq_some_iff es n (FSNode.file c') hnames).1 hl
          | dir es' => simp [contentAt, nodeAt] at hc
      | cons m rel' =>
        right
        rw [List.cons_append, contentAt_dir_cons] at hc
        cases hl : es.lookup m with
        | none => rw [hl] at hc; simp at hc
        | some t' =>
          rw [hl] at hc
          have he : (m, t') ∈ es := (lookup_eq_some_iff es m t' hnames).1 hl
          refine ⟨(m, t'), he, ?_⟩
          exact (ih (m, t') he (base ++ [m]) (base ++ m :: rel') n c).2
            ⟨rel', by simp, hc⟩

theorem nodup_filesOfD_keys (base : List String) (es : List (String × FSNode))
    (hnames : (es.map Prod.fst).Nodup) :
    ((filesOfD base es).map fun x => (x.1, x.2.1)).Nodup := by
  induction es with
  | nil => simp [filesOfD]
  | cons e rest ih =>
    obtain ⟨n', t⟩ := e
    simp only [List.map_cons, List.nodup_cons] at hnames
    obtain ⟨hn, hrest⟩ := hnames
    unfold filesOfD
    rw [List.filterMap_cons]
    cases t with
    | dir es' => exact ih hrest
    | file c =>
      show (((base, n', c) :: filesOfD base rest).map
        fun x => (x.1, x.2.1)).Nodup
      rw [List.map_cons, List.nodup_cons]
      refine ⟨?_, ih hrest⟩
      intro hmem
      rcases List.mem_map.1 hmem with ⟨⟨d, m, c'⟩, hx, hkey⟩
      obtain ⟨-, hm⟩ := Prod.mk.inj hkey
      rcases (mem_filesOfD base rest d m c').1 hx with ⟨rfl, hin⟩
      subst hm
      exact hn (List.mem_map_of_mem Prod.fst hin)

theorem walkNode_shape {t : FSNode} (hwf : WFNode t) (base : List String)
    (x : List String × String × List Nat) (hx : x ∈ walkNode base t) :
    ∃ rel, x.1 = base ++ rel := by
  obtain ⟨d, n, c⟩ := x
  rcases (mem_walkNode hwf base d n c).1 hx with ⟨rel, rfl, -⟩
  exact ⟨rel, rfl⟩

theorem walkEntries_shape (base : List String) (es : List (String × FSNode))
    (hch : ∀ e ∈ es, WFNode e.2) (x : List String × String × List Nat)
    (hx : x ∈ walkEntries base es) :
    ∃ m rel, m ∈ es.map Prod.fst ∧ x.1 = base ++ m :: rel := by
  rcases (mem_walkEntries base es x).1 hx with ⟨e, he, hxe⟩
  rcases walkNode_shape (hch e he) (base ++ [e.1]) x hxe with ⟨rel, hrel⟩
  exact ⟨e.1, rel, List.mem_map_of_mem _ he, by rw [hrel]; simp⟩

theorem nodup_walkEntries_keys (base : List String)
    (es : List (String × FSNode)) (hnames : (es.map Prod.fst).Nodup)
    (hch : ∀ e ∈ es, WFNode e.2)
    (ihall : ∀ e ∈ es, ∀ base',
      ((walkNode base' e.2).map fun x => (x.1, x.2.1)).Nodup) :
    ((walkEntries base es).map fun x => (x.1, x.2.1)).Nodup := by
  induction es with
  | nil => simp [walkEntries]
  | cons e rest ih =>
    simp only [List.map_cons, List.nodup_cons] at hnames
    obtain ⟨hn, hrest⟩ := hnames
    simp only [walkEntries, List.map_append]
    rw [List.nodup_append]
    refine ⟨ihall e (List.mem_cons_self e rest) (base ++ [e.1]),
      ih hrest (fun e' he' => hch e' (List.mem_cons_of_mem _ he'))
        (fun e' he' => ihall e' (List.mem_cons_of_mem _ he')), ?_⟩
    intro y hy1 hy2
    rcases List.mem_map.1 hy1 with ⟨x, hx, rfl⟩
    rcases List.mem_map.1 hy2 with ⟨x', hx', hkey⟩
    rcases walkNode_shape (hch e (List.mem_cons_self e rest)) (base ++ [e.1])
      x hx with ⟨rel, hrel⟩
    rcases walkEntries_shape base rest
      (fun e' he' => hch e' (List.mem_cons_of_mem _ he')) x' hx'
      with ⟨m, rel', hm, hrel'⟩
    have hd : x'.1 = x.1 := (Prod.mk.inj hkey).1
    have heq : base ++ m :: rel' = base ++ e.1 :: rel := by
      rw [← hrel', hd, hrel]
      simp
    have hme : m = e.1 := (List.cons.inj (List.append_cancel_left heq)).1
    subst hme
    exact hn hm

theorem nodup_walkNode {t : FSNode} (hwf : WFNode t) :
    ∀ base, ((walkNode base t).map fun x => (x.1, x.2.1)).Nodup := by
  induction hwf with
  | file cc => intro base; simp [walkNode]
  | dir es hnames hchild ih =>
    intro base
    simp only [walkNode, List.map_append]
    rw [List.nodup_append]
    refine ⟨nodup_filesOfD_keys base es hnames,
      nodup_walkEntries_keys base es hnames hchild ih, ?_⟩
    intro y hy1 hy2
    rcases List.mem_map.1 hy1 with ⟨x, hx, rfl⟩
    rcases List.mem_map.1 hy2 with ⟨x', hx', hkey⟩
    obtain ⟨d, n, c⟩ := x
    rcases (mem_filesOfD base es d n c).1 hx with ⟨hdb, -⟩
    rcases walkEntries_shape base es hchild x' hx' with ⟨m, rel, -, hrel⟩
    have hd : x'.1 = base := (Prod.mk.inj hkey).1.trans hdb
    rw [hrel] at hd
    have hlen := congrArg List.length hd
    rw [List.length_append, List.length_cons] at hlen
    omega

/-- C7: with the recursive flag set, `ingest` emits exactly one work unit
for every regular file at every depth of the subtree (for a well-formed
tree, i.e. distinct entry names per directory): a unit is emitted iff the
tree has a regular file with its bytes at the relative path given by its
`source_dir` and `filename` metadata, and no two emitted units share their
`(source_dir, filename)` provenance. -/
theorem ingest_recursive (cfg : Config)
    (resolve : List String → Option FSNode) (src : List String)
    (entries : List (String × FSNode)) (u : WorkUnit)
    (hsrc : cfg.source_dir = some src) (hrec : cfg.recursive = true)
    (hres : resolve src = some (.dir entries))
    (hwf : WFNode (.dir entries)) :
    ∃ units, ingest cfg resolve = .ok units
      ∧ (u ∈ units ↔ ∃ rel, u.source_dir = src ++ rel
          ∧ contentAt (.dir entries) (rel ++ [u.filename]) = some u.content)
      ∧ (units.map fun v => (v.source_dir, v.filename)).Nodup := by
  have hok : ingest cfg resolve
      = .ok ((walkNode src (.dir entries)).map fun x => ⟨x.2.2, x.2.1, x.1⟩) := by
    simp [ingest, hsrc, hres, hrec]
  refine ⟨_, hok, ?_, ?_⟩
  · obtain ⟨uc, un, usd⟩ := u
    rw [List.mem_map]
    constructor
    · rintro ⟨⟨d, n, c⟩, hmem, heq⟩
      obtain ⟨rfl, rfl, rfl⟩ := WorkUnit.mk.inj heq
      exact (mem_walkNode hwf src d n c).1 hmem
    · rintro ⟨rel, hsd, hc⟩
      exact ⟨(usd, un, uc),
        (mem_walkNode hwf src usd un uc).2 ⟨rel, hsd, hc⟩, rfl⟩
  · rw [List.map_map]
    exact nodup_walkNode hwf src

theorem wfEntriesC7 : WFNode (.dir entriesC7) := by
  refine .dir _ (by decide) ?_
  intro e he
  simp only [entriesC7, List.mem_cons, List.mem_singleton,
    List.not_mem_nil, or_false] at he
  rcases he with rfl | rfl
  · exact .file _
  · refine .dir _ (by decide) ?_
    intro e' he'
    simp only [List.mem_singleton, List.mem_cons, List.not_mem_nil,
      or_false] at he'
    subst he'
    exact .file _

theorem ingest_recursive_witness :
    ∃ units, ingest cfgC7 resolveC7 = .ok units
      ∧ ((⟨[2, 3], "b.txt", ["data", "sub"]⟩ : WorkUnit) ∈ units ↔
          ∃ rel, (⟨[2, 3], "b.txt", ["data", "sub"]⟩ : WorkUnit).source_dir
              = ["data"] ++ rel
            ∧ contentAt (.dir entriesC7)
                (rel ++ [(⟨[2, 3], "b.txt", ["data", "sub"]⟩ : WorkUnit).filename])
              = some (⟨[2, 3], "b.txt", ["data", "sub"]⟩ : WorkUnit).content)
      ∧ (units.map fun v => (v.source_dir, v.filename)).Nodup :=
  ingest_recursive cfgC7 resolveC7 ["data"] entriesC7
    ⟨[2, 3], "b.txt", ["data", "sub"]⟩ rfl rfl rfl wfEntriesC7

end StoqFileDir
